import Mathlib

/-
Verification of the regex finite-state-machine engine (src/regex.py).

The program is embedded shallowly: the object graph built by RegexFSM.__init__
is modelled as an arena of nodes addressed by index, object references
become indices, and the mutable per-node flag PlusState.minimum_check becomes
an explicit list of indices threaded through every call, since the source
stores it on the shared node and mutates it during matching.  Python class
dispatch (isinstance checks) becomes a match on the node kind.  A fresh
TerminationState() behaves identically to every other TerminationState
(is_end False, next_states a self loop, check_self always True), so all of
them are modelled by the single canonical sink node at index 1.  Recursions
of the source that have no structural bound in Python (check_next chains and
the while True loop in check_string) take a fuel argument; a result of none
means the source diverges or needs more fuel, and divergence for every fuel
means the Python program does not terminate.  Python exceptions
(AttributeError from the match statement and from missing attributes,
IndexError from next_states[0] on an empty list) are modelled with Except.
-/

/-- Python exceptions that the source can raise. -/
inductive PyErr where
  | attributeError
  | indexError
  deriving DecidableEq

/-- The node kinds of the state graph: StartState, TerminationState, DotState,
AsciiState, StarState and PlusState.  StarState stores its checking atom and
the prev state passed to the constructor; PlusState stores its checking atom.
The loop_state that PlusState.__init__ builds is omitted: the source only
ever mentions it as the unevaluated bound method cur_check.check_self, so it
never contributes to any behaviour. -/
inductive Kind where
  | start
  | termination
  | dot
  | ascii (sym : Char)
  | star (checking : Nat) (prev : Nat)
  | plus (checking : Nat)
  deriving DecidableEq

/-- A node of the graph: its kind, its ordered successor list next_states and
its is_end attribute.  is_end is an Option because StartState.__init__ never
sets the attribute: none models the missing attribute, whose read raises
AttributeError. -/
structure Node where
  kind : Kind
  next_states : List Nat
  is_end : Option Bool
  deriving DecidableEq

/-- The arena of nodes.  Index 0 is the shared StartState that is the
class attribute RegexFSM.curr_state, index 1 the canonical termination sink. -/
structure Graph where
  nodes : List Node
  deriving DecidableEq

def Graph.kindOf (g : Graph) (i : Nat) : Kind :=
  match g.nodes.get? i with
  | some n => n.kind
  | none => .start

def Graph.nextOf (g : Graph) (i : Nat) : List Nat :=
  match g.nodes.get? i with
  | some n => n.next_states
  | none => []

def Graph.isEndOf (g : Graph) (i : Nat) : Option Bool :=
  match g.nodes.get? i with
  | some n => n.is_end
  | none => none

/-- Index of the shared StartState. -/
def START : Nat := 0

/-- Index of the canonical TerminationState sink. -/
def termIdx : Nat := 1

/-- The set of PlusState nodes whose minimum_check flag is currently True.
In the source this flag lives mutably on the shared node. -/
def minGet (sig : List Nat) (i : Nat) : Bool := sig.contains i

def minSet (sig : List Nat) (i : Nat) : List Nat :=
  if sig.contains i then sig else i :: sig

/-- Is the node at index i a StarState (the isinstance(_, StarState) check)? -/
def isStarKind (g : Graph) (i : Nat) : Bool :=
  match g.kindOf i with
  | .star _ _ => true
  | _ => false

/-- check_self of the node at index i on character c, returning the truth
value Python would produce together with the updated minimum_check flags.
StartState.check_self calls the abstract method whose body is pass, which
returns None, a falsy value.  PlusState.check_self sets minimum_check when
its checking state accepts the character and then returns
cur_check.check_self and self.minimum_check; the bound method is truthy, so
the result is the updated flag. -/
def checkSelf (g : Graph) : Nat → List Nat → Nat → Char → Option (Bool × List Nat)
  | 0, _, _, _ => none
  | fuel+1, sig, i, c =>
    match g.kindOf i with
    | .start => some (false, sig)
    | .termination => some (true, sig)
    | .dot => some (true, sig)
    | .ascii sym => some (c == sym, sig)
    | .star ch _ => checkSelf g fuel sig ch c
    | .plus ch =>
      match checkSelf g fuel sig ch c with
      | none => none
      | some (b, s1) =>
        let s2 := if b then minSet s1 i else s1
        some (minGet s2 i, s2)

/-- The successor loop shared by StartState.check_next and
TerminationState.check_next: return the first successor whose check_self
accepts the character, else a fresh TerminationState. -/
def probeSelfList (g : Graph) (fuel : Nat) : List Nat → List Nat → Char → Option (Nat × List Nat)
  | sig, [], _ => some (termIdx, sig)
  | sig, s :: rest, c =>
    match checkSelf g fuel sig s c with
    | none => none
    | some (true, s1) => some (s, s1)
    | some (false, s1) => probeSelfList g fuel s1 rest c

/-- The successor loop of DotState.check_next: first the check_self test,
then, if the successor is a StarState, delegate to its check_next. -/
def dotProbe (g : Graph) (fuel : Nat) (cn : List Nat → Nat → Char → Option (Nat × List Nat)) :
    List Nat → List Nat → Char → Option (Nat × List Nat)
  | sig, [], _ => some (termIdx, sig)
  | sig, s :: rest, c =>
    match checkSelf g fuel sig s c with
    | none => none
    | some (true, s1) => some (s, s1)
    | some (false, s1) =>
      if isStarKind g s then cn s1 s c
      else dotProbe g fuel cn s1 rest c

/-- The successor loop of AsciiState.check_next: StarState successors are
delegated to before the check_self test is made. -/
def asciiProbe (g : Graph) (fuel : Nat) (cn : List Nat → Nat → Char → Option (Nat × List Nat)) :
    List Nat → List Nat → Char → Option (Nat × List Nat)
  | sig, [], _ => some (termIdx, sig)
  | sig, s :: rest, c =>
    if isStarKind g s then cn sig s c
    else
      match checkSelf g fuel sig s c with
      | none => none
      | some (true, s1) => some (s, s1)
      | some (false, s1) => asciiProbe g fuel cn s1 rest c

/-- The successor loop of StarState.check_next: StarState successors are
skipped with continue; for any other successor the source evaluates
state.check_next(next_char) and tests its truthiness, but every check_next
result is a State object and hence truthy, so the first such successor is
returned unconditionally (only the flag mutations of the probe survive). -/
def starProbe (g : Graph) (cn : List Nat → Nat → Char → Option (Nat × List Nat)) :
    List Nat → List Nat → Char → Option (Nat × List Nat)
  | sig, [], _ => some (termIdx, sig)
  | sig, s :: rest, c =>
    if isStarKind g s then starProbe g cn sig rest c
    else
      match cn sig s c with
      | none => none
      | some (_, s1) => some (s, s1)

/-- The successor loop of PlusState.check_next: a StarState successor is
delegated to; otherwise state.check_next(next_char) is evaluated and its
truthiness tested, which always succeeds, so the successor is returned. -/
def plusProbe (g : Graph) (cn : List Nat → Nat → Char → Option (Nat × List Nat)) :
    List Nat → List Nat → Char → Option (Nat × List Nat)
  | sig, [], _ => some (termIdx, sig)
  | sig, s :: _, c =>
    if isStarKind g s then cn sig s c
    else
      match cn sig s c with
      | none => none
      | some (_, s1) => some (s, s1)

/-- check_next of the node at index i on character c: the transition
resolution of each State subclass, translated branch by branch. -/
def checkNext (g : Graph) : Nat → List Nat → Nat → Char → Option (Nat × List Nat)
  | 0, _, _, _ => none
  | fuel+1, sig, i, c =>
    match g.kindOf i with
    | .start => probeSelfList g (fuel+1) sig (g.nextOf i) c
    | .termination => probeSelfList g (fuel+1) sig (g.nextOf i) c
    | .dot => dotProbe g (fuel+1) (checkNext g fuel) sig (g.nextOf i) c
    | .ascii _ => asciiProbe g (fuel+1) (checkNext g fuel) sig (g.nextOf i) c
    | .star ch _ =>
      match checkSelf g (fuel+1) sig ch c with
      | none => none
      | some (true, s1) => some (i, s1)
      | some (false, s1) => starProbe g (checkNext g fuel) s1 (g.nextOf i) c
    | .plus ch =>
      match checkSelf g (fuel+1) sig ch c with
      | none => none
      | some (true, s1) => some (i, s1)
      | some (false, s1) =>
        if minGet s1 i then plusProbe g (checkNext g fuel) s1 (g.nextOf i) c
        else some (termIdx, s1)

/-- The inner for loop of the fast-forward branch of check_string: walk the
successor list captured at loop entry, extending exit_phrase and moving
cur_next on every AsciiState met, breaking as soon as the current cur_next
has no successors. -/
def ffScan (g : Graph) : List Nat → Nat → List Char → Nat × List Char
  | [], cur, ph => (cur, ph)
  | s :: rest, cur, ph =>
    let step :=
      match g.kindOf s with
      | .ascii sym => (s, ph ++ [sym])
      | _ => (cur, ph)
    if (g.nextOf step.1).isEmpty then step
    else ffScan g rest step.1 step.2

/-- The while True loop of the fast-forward branch; none means the loop
never terminates within the given fuel. -/
def ffWhile (g : Graph) : Nat → Nat → List Char → Option (Nat × List Char)
  | 0, _, _ => none
  | fuel+1, cur, ph =>
    let step := ffScan g (g.nextOf cur) cur ph
    if (g.nextOf step.1).isEmpty then some step
    else ffWhile g fuel step.1 step.2

/-- The guard of the fast-forward branch:
isinstance(curr, (StarState, PlusState)) and isinstance(curr.checking_state, DotState). -/
def ffCond (g : Graph) (i : Nat) : Bool :=
  match g.kindOf i with
  | .star ch _ => g.kindOf ch == Kind.dot
  | .plus ch => g.kindOf ch == Kind.dot
  | _ => false

/-- RegexFSM.check_string, from the current node over the remaining input.
The returned pair carries the final truth value of curr_state.is_end and the
minimum_check flags, which the source leaves behind on the shared nodes
after the call (only the cursor is restored).  Reading is_end of a node that
never received the attribute raises AttributeError; next_states[0] of an
empty list raises IndexError; reading curr_sym of a node that is not an
AsciiState raises AttributeError. -/
def checkString (g : Graph) (fuel : Nat) : List Nat → Nat → List Char → Option (Except PyErr (Bool × List Nat))
  | sig, cur, [] =>
    match g.isEndOf cur with
    | none => some (.error .attributeError)
    | some b => some (.ok (b, sig))
  | sig, cur, c :: rest =>
    if ffCond g cur then
      match g.nextOf cur with
      | [] => some (.error .indexError)
      | n0 :: _ =>
        match g.kindOf n0 with
        | .ascii sym =>
          match ffWhile g fuel n0 [sym] with
          | none => none
          | some (_, ph) =>
            let cur1 := if (c :: rest).take (1 + ph.length) == ph then n0 else cur
            checkString g fuel sig cur1 rest
        | _ => some (.error .attributeError)
    else
      match checkNext g fuel sig cur c with
      | none => none
      | some (j, s1) => checkString g fuel s1 j rest

/-- str.isascii on a single character: code point below 128. -/
def isAsciiPy (c : Char) : Bool := decide (c.toNat < 128)

/-- Membership of a character in the string literal given to
the test char in '*+' of the compiler loop. -/
def isQuant (c : Char) : Bool := c == '*' || c == '+'

/-- A freshly constructed non-start node: empty next_states, is_end False.
Every concrete State subclass except StartState initializes both fields. -/
def Node.mkInit (k : Kind) : Node :=
  { kind := k, next_states := [], is_end := some false }

/-- Allocate a node at the end of the arena, returning its index. -/
def addNode (g : Graph) (k : Kind) : Graph × Nat :=
  ({ nodes := g.nodes ++ [Node.mkInit k] }, g.nodes.length)

/-- Apply f to the element at position i, if any. -/
def setAt (l : List Node) (i : Nat) (f : Node → Node) : List Node :=
  match l, i with
  | [], _ => []
  | n :: rest, 0 => f n :: rest
  | n :: rest, k+1 => n :: setAt rest k f

/-- Append j to node i.next_states. -/
def pushNext (g : Graph) (i j : Nat) : Graph :=
  { nodes := setAt g.nodes i (fun n => { n with next_states := n.next_states ++ [j] }) }

/-- Set node i.is_end to True. -/
def setEndTrue (g : Graph) (i : Nat) : Graph :=
  { nodes := setAt g.nodes i (fun n => { n with is_end := some true }) }

/-- The prev_state attribute of a StarState (only read under an
isinstance(_, StarState) guard in the source). -/
def Graph.prevOf (g : Graph) (i : Nat) : Nat :=
  match g.kindOf i with
  | .star _ p => p
  | _ => 0

/-- RegexFSM.__init_next_state: build the node for one pattern token.  The
match statement takes the first case that applies, in source order: the dot,
the star, the plus, then any character for which str.isascii holds, and
raises AttributeError otherwise. -/
def initNextState (g : Graph) (tok : Char) (prev tmp : Nat) : Except PyErr (Graph × Nat) :=
  if tok = '.' then .ok (addNode g .dot)
  else if tok = '*' then .ok (addNode g (.star tmp prev))
  else if tok = '+' then .ok (addNode g (.plus tmp))
  else if isAsciiPy tok then .ok (addNode g (.ascii tok))
  else .error .attributeError

/-- The one-character lookahead of the scanning loop: when the next pattern
character is a quantifier, RegexFSM.__init_next_state is called on it at
once, wrapping the atom node t1; otherwise the atom node stands as built. -/
def lookAhead (g1 : Graph) (prev t1 : Nat) : List Char → Except PyErr (Graph × Nat)
  | c2 :: _ => if isQuant c2 then initNextState g1 c2 prev t1 else .ok (g1, t1)
  | [] => .ok (g1, t1)

/-- The linking step of the scanning loop: append the produced node t2 to
prev_state.next_states, and when prev_state is a StarState also to the
next_states of its prev_state. -/
def linkNew (g2 : Graph) (prev t2 : Nat) : Graph :=
  let g3 := pushNext g2 prev t2
  if isStarKind g3 prev then pushNext g3 (g3.prevOf prev) t2 else g3

/-- The scanning loop of RegexFSM.__init__: quantifier characters are
skipped at top level and only consumed by the lookahead after the atom they
follow; each produced node is linked in and becomes the new prev_state and
tmp_next_state, and is appended to the states list. -/
def compileLoop (g : Graph) (prev tmp : Nat) (states : List Nat) :
    List Char → Except PyErr (Graph × List Nat)
  | [] => .ok (g, states)
  | c :: rest =>
    if isQuant c then compileLoop g prev tmp states rest
    else
      match initNextState g c prev tmp with
      | .error e => .error e
      | .ok (g1, t1) =>
        match lookAhead g1 prev t1 rest with
        | .error e => .error e
        | .ok (g2, t2) => compileLoop (linkNew g2 prev t2) t2 t2 (states ++ [t2]) rest

/-- The acceptance-marking loop of RegexFSM.__init__: walking the chain
backwards, every StarState met is marked is_end, and the first
non-StarState is marked is_end and stops the walk.  The Bool records
end_exists. -/
def markLoop (g : Graph) : List Nat → Graph × Bool
  | [] => (g, false)
  | i :: rest =>
    if isStarKind g i then markLoop (setEndTrue g i) rest
    else (setEndTrue g i, true)

/-- Acceptance marking with the end_exists fallback on states[-1]. -/
def markEnds (g : Graph) (states : List Nat) : Graph :=
  let r := markLoop g states.reverse
  if r.2 then r.1
  else
    match states.reverse with
    | last :: _ => setEndTrue r.1 last
    | [] => r.1

/-- The module-level initial arena: the StartState created once as the class
attribute RegexFSM.curr_state (whose next_states is the class-level shared
list and whose is_end attribute does not exist), and the canonical
termination sink. -/
def graph0 : Graph :=
  { nodes := [ { kind := .start, next_states := [], is_end := none },
               { kind := .termination, next_states := [termIdx], is_end := some false } ] }

/-- RegexFSM.__init__ on a pattern: runs the scanning loop from the shared
StartState of the given arena and then marks the accepting nodes.  Passing
the arena left by a previous construction models building a second RegexFSM
in the same process, which shares the very same StartState object. -/
def RegexFSM.compile (g : Graph) (p : List Char) : Except PyErr Graph :=
  match compileLoop g START START [START] p with
  | .error e => .error e
  | .ok (g1, states) => .ok (markEnds g1 states)

/-- Compile the pattern in a fresh process and run check_string once from
fresh minimum_check flags, keeping only the truth value. -/
def matchesFuel (fuel : Nat) (p s : List Char) : Option (Except PyErr Bool) :=
  match RegexFSM.compile graph0 p with
  | .error e => some (.error e)
  | .ok g => (checkString g fuel [] START s).map (fun r => r.map (fun x => x.1))

/-- matchesFuel with fuel ample for every concrete run in this development. -/
def matchesM (p s : List Char) : Option (Except PyErr Bool) := matchesFuel 100 p s

/-- Run check_string on an already-built graph from fresh flags. -/
def runOn (g : Graph) (s : List Char) : Option (Except PyErr Bool) :=
  (checkString g 100 [] START s).map (fun r => r.map (fun x => x.1))

/-- Did the Except succeed? -/
def exceptIsOk {α : Type} : Except PyErr α → Bool
  | .ok _ => true
  | .error _ => false

/-- Extract the graph of a successful compilation. -/
def getOkGraph (r : Except PyErr Graph) : Graph :=
  match r with
  | .ok g => g
  | .error _ => graph0

/-- The kind of node i of the graph compiled from p, if compilation
succeeds. -/
def compiledKindAt (p : List Char) (i : Nat) : Option Kind :=
  match RegexFSM.compile graph0 p with
  | .error _ => none
  | .ok g => some (g.kindOf i)

/-- Spec-side definition, written to the words of the specification for the
ZeroOrMore transition (claim C7): probe successors in order, skip any
successor that is itself a ZeroOrMore, call each remaining successor
advance, and the first one whose resolution is not Termination wins; if no
successor qualifies, Termination. -/
def starSpecProbe (g : Graph) (fuel : Nat) : List Nat → List Nat → Char → Option (Nat × List Nat)
  | sig, [], _ => some (termIdx, sig)
  | sig, s :: rest, c =>
    if isStarKind g s then starSpecProbe g fuel sig rest c
    else
      match checkNext g fuel sig s c with
      | none => none
      | some (r, s1) =>
        if g.kindOf r == Kind.termination then starSpecProbe g fuel s1 rest c
        else some (s, s1)

/-- Spec-side definition of the whole ZeroOrMore advance of claim C7: stay
on self when the inner atom accepts the character, otherwise resolve by
starSpecProbe. -/
def starAdvanceSpec (g : Graph) (fuel : Nat) (sig : List Nat) (i : Nat) (c : Char) :
    Option (Nat × List Nat) :=
  match g.kindOf i with
  | .star ch _ =>
    match checkSelf g fuel sig ch c with
    | none => none
    | some (true, s1) => some (i, s1)
    | some (false, s1) => starSpecProbe g fuel s1 (g.nextOf i) c
  | _ => none

/-- The amended description of the ZeroOrMore advance that the source
actually implements: stay on self when the inner atom accepts the
character; otherwise the first successor that is not itself a ZeroOrMore is
moved to unconditionally, because the truthiness test on its advance result
always succeeds; if every successor is a ZeroOrMore, or there is none,
the result is Termination. -/
def starAdvanceAmended (g : Graph) : Nat → List Nat → Nat → Char → Option (Nat × List Nat)
  | 0, _, _, _ => none
  | fuel+1, sig, i, c =>
    match g.kindOf i with
    | .star ch _ =>
      match checkSelf g (fuel+1) sig ch c with
      | none => none
      | some (true, s1) => some (i, s1)
      | some (false, s1) =>
        match (g.nextOf i).find? (fun s => !(isStarKind g s)) with
        | none => some (termIdx, s1)
        | some j =>
          match checkNext g fuel s1 j c with
          | none => none
          | some (_, s2) => some (j, s2)
    | _ => none

/- Concrete patterns and inputs used by the claims. -/

def pat1 : List Char := "a*4.+hi".data
def inp1a : List Char := "4uhi".data
def inp1b : List Char := "aaaaaa4uhi".data
def inp1c : List Char := "meow".data

def patAStar : List Char := "a*".data
def patAPlus : List Char := "a+".data
def inpNone : List Char := "".data
def inpA : List Char := "a".data
def inpAAA : List Char := "aaa".data

def patHash : List Char := "a#".data

def patDotStar : List Char := ".*".data
def inpAB : List Char := "ab".data

def pat5 : List Char := ".+ab*".data
def inp5 : List Char := "xa".data

def pat6 : List Char := "a+b".data
def inp6ab : List Char := "ab".data
def inp6bb : List Char := "bb".data

def pat7 : List Char := "a*b*c".data

def patC8 : List Char := "a4".data
def inpZZ : List Char := "zz".data

def patA : List Char := "a".data
def patB : List Char := "b".data

/-- The graph of the pattern a+b. -/
def G6 : Graph := getOkGraph (RegexFSM.compile graph0 pat6)

/-- The graph of the pattern a*b*c; node 3 is the ZeroOrMore over the
literal a, its successors are node 5 (the ZeroOrMore over the literal b)
and node 6 (the literal c). -/
def G7 : Graph := getOkGraph (RegexFSM.compile graph0 pat7)

/-- The graph of the pattern .+ab*; node 3 is the OneOrMore over the dot,
node 4 the literal a whose only successor, node 6, is a ZeroOrMore. -/
def G5c : Graph := getOkGraph (RegexFSM.compile graph0 pat5)

/-- The graph of the pattern a4, used to instantiate claim C8. -/
def GC8 : Graph := getOkGraph (RegexFSM.compile graph0 patC8)

/-- The graph of the first compiled pattern a. -/
def GA : Graph := getOkGraph (RegexFSM.compile graph0 patA)

/-- The arena after additionally compiling the pattern b in the same
process: the second RegexFSM links its first node into the next_states of
the very same class-level StartState that the first graph uses. -/
def GAB : Graph := getOkGraph (RegexFSM.compile GA patB)

/-- Claim C1: for the compiled pattern a*4.+hi, matching returns true for
the input 4uhi, true for the input aaaaaa4uhi, and false for the input
meow. -/
theorem c1_concrete_scenarios :
    matchesM pat1 inp1a = some (.ok true)
    ∧ matchesM pat1 inp1b = some (.ok true)
    ∧ matchesM pat1 inp1c = some (.ok false) :=
  ⟨rfl, rfl, rfl⟩

/-- Claim C2 (code bug): matching the compiled pattern a+ against the empty
string does not return false as claimed; it raises AttributeError, because
the marking loop stops at the PlusState and the shared StartState never
receives an is_end attribute.  The remaining boundary scenarios of the
claim hold: a* accepts the empty string and a+ accepts a and aaa. -/
theorem c2_plus_empty_raises :
    matchesM patAPlus inpNone = some (.error .attributeError)
    ∧ matchesM patAStar inpNone = some (.ok true)
    ∧ matchesM patAPlus inpA = some (.ok true)
    ∧ matchesM patAPlus inpAAA = some (.ok true) :=
  ⟨rfl, rfl, rfl, rfl⟩

/-- Claim C3, counterexample: compiling a# does not raise; the character #
satisfies str.isascii, so the match statement builds an AsciiState literal
for it (node 3 of the arena) and compilation succeeds. -/
theorem c3_hash_compiles :
    exceptIsOk (RegexFSM.compile graph0 patHash) = true
    ∧ compiledKindAt patHash 3 = some (.ascii '#') :=
  ⟨rfl, rfl⟩

/-- Claim C4 (code bug): matching is not total.  For the compiled pattern
.* and the input ab, the second step enters the fast-forward branch of
check_string on the ZeroOrMore-over-dot node, whose next_states list is
empty, and next_states[0] raises IndexError. -/
theorem c4_dotstar_index_error :
    matchesM patDotStar inpAB = some (.error .indexError) :=
  rfl

/-- Claim C6 (code bug): match calls against the same compiled pattern are
not independent.  On the graph of a+b with fresh minimum_check flags,
check_string rejects bb; running check_string on ab leaves the flag of the
PlusState node 3 set on the shared graph; and from that leaked state
check_string accepts bb. -/
theorem c6_min_flag_persists :
    checkString G6 50 [] START inp6bb = some (.ok (false, []))
    ∧ checkString G6 50 [] START inp6ab = some (.ok (true, [3]))
    ∧ checkString G6 50 [3] START inp6bb = some (.ok (true, [3])) :=
  ⟨rfl, rfl, rfl⟩

/-- Claim C9 (code bug): compiling a second pattern changes the match
behaviour of the first.  The graph of the pattern a rejects the input b,
but after compiling the pattern b in the same process, which appends its
literal node to the next_states of the shared class-level StartState, the
first automaton accepts b. -/
theorem c9_shared_start_interference :
    runOn GA patB = some (.ok false)
    ∧ runOn GAB patB = some (.ok true) :=
  ⟨rfl, rfl⟩

/-- Claim C7, counterexample: on the graph of a*b*c, the ZeroOrMore node 3
reads the character x, which its atom rejects.  The resolution procedure of
the claim yields Termination, because the advance of the only
non-ZeroOrMore successor, node 6, resolves to Termination; but the code
moves to node 6, whose kind is not Termination: the truthiness test
state.check_next(next_char) never fails. -/
theorem c7_star_probe_differs :
    starAdvanceSpec G7 50 [] 3 'x' = some (termIdx, [])
    ∧ checkNext G7 50 [] 3 'x' = some (6, [])
    ∧ G7.kindOf 6 ≠ Kind.termination :=
  ⟨rfl, rfl, by decide⟩

/-- On the graph of .+ab*, each iteration of the while True loop of the
fast-forward branch starting from the literal node 4 returns to the same
state: the only successor, node 6, is a StarState, so exit_phrase and
cur_next never change while next_states of node 4 stays nonempty. -/
theorem ffWhile_div : ∀ fuel : Nat, ffWhile G5c fuel 4 ['a'] = none := by
  intro fuel
  induction fuel with
  | zero => rfl
  | succ f ih =>
    rw [show ffWhile G5c (f+1) 4 ['a'] = ffWhile G5c f 4 ['a'] from rfl]
    exact ih

/-- Claim C5 (code bug): matching does not always terminate.  For the
compiled pattern .+ab* and the input xa, the second character puts the
matcher in the fast-forward branch on the OneOrMore-over-dot node, whose
exit-phrase scan loops forever, so check_string returns no result at any
fuel: the Python call never returns. -/
theorem c5_fast_forward_diverges : ∀ fuel : Nat, matchesFuel fuel pat5 inp5 = none := by
  intro fuel
  match fuel with
  | 0 => rfl
  | 1 => rfl
  | (f+2) =>
    have hff : ffWhile G5c (f+2) 4 ['a'] = none := ffWhile_div (f+2)
    have step1 : checkString G5c (f+2) [] START inp5 = checkString G5c (f+2) [3] 3 ['a'] := rfl
    have step2 : checkString G5c (f+2) [3] 3 ['a'] =
        (match ffWhile G5c (f+2) 4 ['a'] with
         | none => none
         | some (_, ph) =>
           checkString G5c (f+2) [3]
             (if (['a'].take (1 + ph.length)) == ph then 4 else 3) []) := rfl
    rw [hff] at step2
    show (checkString G5c (f+2) [] START inp5).map (fun r => r.map (fun x => x.1)) = none
    rw [step1, step2]
    rfl

/-- The StarState successor loop picks the first successor that is not a
StarState, runs its check_next only for its flag mutations, and returns
that successor; with no such successor the result is Termination. -/
theorem starProbe_find (g : Graph) (cn : List Nat → Nat → Char → Option (Nat × List Nat)) :
    ∀ (l sig : List Nat) (c : Char),
      starProbe g cn sig l c =
        (match l.find? (fun t => !(isStarKind g t)) with
         | none => some (termIdx, sig)
         | some j =>
           match cn sig j c with
           | none => none
           | some (_, s1) => some (j, s1)) := by
  intro l
  induction l with
  | nil =>
    intro sig c
    rfl
  | cons s rest ih =>
    intro sig c
    by_cases hs : isStarKind g s = true
    · have hf : (s :: rest).find? (fun t => !(isStarKind g t)) =
          rest.find? (fun t => !(isStarKind g t)) :=
        List.find?_cons_of_neg _ (by simp [hs])
      rw [show starProbe g cn sig (s :: rest) c = starProbe g cn sig rest c from by
            simp [starProbe, hs],
          ih, hf]
    · have hb : isStarKind g s = false := by
        cases h2 : isStarKind g s
        · rfl
        · exact absurd h2 hs
      have hf : (s :: rest).find? (fun t => !(isStarKind g t)) = some s :=
        List.find?_cons_of_pos _ (by simp [hb])
      rw [hf]
      simp [starProbe, hb]

/-- Claim C7, amended: on character c a ZeroOrMore node stays on itself when
the inner atom accepts c; otherwise successors are probed in order, skipping
ZeroOrMore successors, each probed successor advance is called but its
resolution is never consulted (every resolution object is truthy), so
traversal moves to the first non-ZeroOrMore successor unconditionally, and
only when every successor is a ZeroOrMore, or there is none, is the result
Termination. -/
theorem c7_star_advance_amended :
    ∀ (g : Graph) (fuel : Nat) (sig : List Nat) (i : Nat) (c : Char) (ch pr : Nat),
      g.kindOf i = .star ch pr →
      checkNext g fuel sig i c = starAdvanceAmended g fuel sig i c := by
  intro g fuel sig i c ch pr h
  cases fuel with
  | zero => rfl
  | succ f =>
    simp only [checkNext, starAdvanceAmended, h]
    cases hcs : checkSelf g (f+1) sig ch c with
    | none => rfl
    | some p =>
      obtain ⟨b, s1⟩ := p
      cases b
      · exact starProbe_find g (checkNext g f) (g.nextOf i) s1 c
      · rfl

/-- Witness for c7_star_advance_amended: on the graph of a*b*c, node 3 is a
ZeroOrMore node and its advance on x agrees with the amended description. -/
theorem c7_star_advance_amended_witness :
    G7.kindOf 3 = Kind.star 2 0
    ∧ checkNext G7 50 [] 3 'x' = starAdvanceAmended G7 50 [] 3 'x' :=
  ⟨rfl, c7_star_advance_amended G7 50 [] 3 'x' 2 0 rfl⟩

/-- The quantifier characters are ASCII. -/
theorem isQuant_ascii (c : Char) (h : isQuant c = true) : isAsciiPy c = true := by
  have hor : c = '*' ∨ c = '+' := by
    rcases Bool.or_eq_true _ _ |>.mp h with h1 | h1
    · exact Or.inl (beq_iff_eq.mp h1)
    · exact Or.inr (beq_iff_eq.mp h1)
  rcases hor with h1 | h1 <;> subst h1 <;> rfl

/-- For an ASCII token the match statement of RegexFSM.__init_next_state
always takes one of its four constructing cases. -/
theorem initNextState_ascii_ok (g : Graph) (prev tmp : Nat) (c : Char)
    (h : isAsciiPy c = true) :
    ∃ r, initNextState g c prev tmp = .ok r := by
  unfold initNextState
  by_cases h1 : c = '.'
  · rw [if_pos h1]
    exact ⟨_, rfl⟩
  · rw [if_neg h1]
    by_cases h2 : c = '*'
    · rw [if_pos h2]
      exact ⟨_, rfl⟩
    · rw [if_neg h2]
      by_cases h3 : c = '+'
      · rw [if_pos h3]
        exact ⟨_, rfl⟩
      · rw [if_neg h3, if_pos h]
        exact ⟨_, rfl⟩

/-- For a non-ASCII token RegexFSM.__init_next_state raises AttributeError. -/
theorem initNextState_nonascii (g : Graph) (prev tmp : Nat) (c : Char)
    (h : isAsciiPy c = false) :
    initNextState g c prev tmp = .error .attributeError := by
  have h1 : c ≠ '.' := by
    intro e
    subst e
    exact absurd h (by decide)
  have h2 : c ≠ '*' := by
    intro e
    subst e
    exact absurd h (by decide)
  have h3 : c ≠ '+' := by
    intro e
    subst e
    exact absurd h (by decide)
  unfold initNextState
  rw [if_neg h1, if_neg h2, if_neg h3, if_neg (by simp [h])]

/-- The lookahead never raises: a quantifier lookahead token is handled by
the star or plus case of the match statement. -/
theorem lookAhead_isOk (g1 : Graph) (prev t1 : Nat) (rest : List Char) :
    ∃ r, lookAhead g1 prev t1 rest = .ok r := by
  cases rest with
  | nil => exact ⟨_, rfl⟩
  | cons c2 rest2 =>
    by_cases hq : isQuant c2 = true
    · obtain ⟨r, hr⟩ := initNextState_ascii_ok g1 prev t1 c2 (isQuant_ascii c2 hq)
      exact ⟨r, by simp [lookAhead, hq, hr]⟩
    · exact ⟨(g1, t1), by simp [lookAhead, hq]⟩

/-- The scanning loop of RegexFSM.__init__ succeeds exactly when every
pattern character is ASCII. -/
theorem compileLoop_ok :
    ∀ (p : List Char) (g : Graph) (prev tmp : Nat) (states : List Nat),
      exceptIsOk (compileLoop g prev tmp states p) = p.all isAsciiPy := by
  intro p
  induction p with
  | nil =>
    intro g prev tmp states
    rfl
  | cons c rest ih =>
    intro g prev tmp states
    by_cases hq : isQuant c = true
    · rw [show compileLoop g prev tmp states (c :: rest) = compileLoop g prev tmp states rest
          from by simp [compileLoop, hq]]
      rw [ih]
      simp [isQuant_ascii c hq]
    · have hq2 : isQuant c = false := by
        cases hb : isQuant c
        · rfl
        · exact absurd hb hq
      by_cases ha : isAsciiPy c = true
      · obtain ⟨⟨g1, t1⟩, h1⟩ := initNextState_ascii_ok g prev tmp c ha
        obtain ⟨⟨g2, t2⟩, h2⟩ := lookAhead_isOk g1 prev t1 rest
        rw [show compileLoop g prev tmp states (c :: rest) =
            compileLoop (linkNew g2 prev t2) t2 t2 (states ++ [t2]) rest
            from by simp [compileLoop, hq2, h1, h2]]
        rw [ih]
        simp [ha]
      · have ha2 : isAsciiPy c = false := by
          cases hb : isAsciiPy c
          · rfl
          · exact absurd hb ha
        have h1 := initNextState_nonascii g prev tmp c ha2
        simp [compileLoop, hq2, h1, ha2, exceptIsOk]

/-- Claim C3, amended: compilation raises exactly for patterns containing a
character outside ASCII; every ASCII character that is not one of the
special tokens is accepted as a literal, so in particular a# compiles. -/
theorem c3_compile_rejects_nonascii :
    ∀ p : List Char, exceptIsOk (RegexFSM.compile graph0 p) = p.all isAsciiPy := by
  intro p
  have h0 := compileLoop_ok p graph0 START START [START]
  unfold RegexFSM.compile
  cases h : compileLoop graph0 START START [START] p with
  | error e =>
    rw [h] at h0
    simpa using h0
  | ok r =>
    rw [h] at h0
    obtain ⟨g1, states⟩ := r
    simpa using h0

/-- A quantifier character at the head of the scan is skipped outright by
the continue at the top of the loop. -/
theorem compileLoop_skip (g : Graph) (prev tmp : Nat) (states : List Nat)
    (q : Char) (p : List Char) (hq : isQuant q = true) :
    compileLoop g prev tmp states (q :: p) = compileLoop g prev tmp states p := by
  simp [compileLoop, hq]

/-- Dropping the second of two adjacent quantifier characters does not
change the scan: the first quantifier is only ever consumed by the
lookahead of the preceding atom, and the second is skipped at top level and
never seen by any lookahead. -/
theorem compileLoop_consec :
    ∀ (xs : List Char) (g : Graph) (prev tmp : Nat) (states : List Nat)
      (q1 q2 : Char) (ys : List Char), isQuant q1 = true → isQuant q2 = true →
      compileLoop g prev tmp states (xs ++ q1 :: q2 :: ys) =
        compileLoop g prev tmp states (xs ++ q1 :: ys) := by
  intro xs
  induction xs with
  | nil =>
    intro g prev tmp states q1 q2 ys hq1 hq2
    rw [List.nil_append, List.nil_append, compileLoop_skip _ _ _ _ _ _ hq1,
        compileLoop_skip _ _ _ _ _ _ hq2, compileLoop_skip _ _ _ _ _ _ hq1]
  | cons x xs2 ih =>
    intro g prev tmp states q1 q2 ys hq1 hq2
    rw [List.cons_append, List.cons_append]
    by_cases hx : isQuant x = true
    · rw [compileLoop_skip _ _ _ _ _ _ hx, compileLoop_skip _ _ _ _ _ _ hx]
      exact ih g prev tmp states q1 q2 ys hq1 hq2
    · have hx2 : isQuant x = false := by
        cases hb : isQuant x
        · rfl
        · exact absurd hb hx
      cases h1 : initNextState g x prev tmp with
      | error e =>
        rw [show compileLoop g prev tmp states (x :: (xs2 ++ q1 :: q2 :: ys)) = .error e
              from by simp [compileLoop, hx2, h1],
            show compileLoop g prev tmp states (x :: (xs2 ++ q1 :: ys)) = .error e
              from by simp [compileLoop, hx2, h1]]
      | ok r =>
        obtain ⟨g1, t1⟩ := r
        have hla : lookAhead g1 prev t1 (xs2 ++ q1 :: q2 :: ys)
            = lookAhead g1 prev t1 (xs2 ++ q1 :: ys) := by
          cases xs2 with
          | nil => rfl
          | cons a b => rfl
        cases h2 : lookAhead g1 prev t1 (xs2 ++ q1 :: ys) with
        | error e =>
          have h2b : lookAhead g1 prev t1 (xs2 ++ q1 :: q2 :: ys) = .error e := by
            rw [hla, h2]
          rw [show compileLoop g prev tmp states (x :: (xs2 ++ q1 :: q2 :: ys)) = .error e
                from by simp [compileLoop, hx2, h1, h2b],
              show compileLoop g prev tmp states (x :: (xs2 ++ q1 :: ys)) = .error e
                from by simp [compileLoop, hx2, h1, h2]]
        | ok r2 =>
          obtain ⟨g2, t2⟩ := r2
          have h2b : lookAhead g1 prev t1 (xs2 ++ q1 :: q2 :: ys) = .ok (g2, t2) := by
            rw [hla, h2]
          rw [show compileLoop g prev tmp states (x :: (xs2 ++ q1 :: q2 :: ys)) =
                compileLoop (linkNew g2 prev t2) t2 t2 (states ++ [t2]) (xs2 ++ q1 :: q2 :: ys)
                from by simp [compileLoop, hx2, h1, h2b],
              show compileLoop g prev tmp states (x :: (xs2 ++ q1 :: ys)) =
                compileLoop (linkNew g2 prev t2) t2 t2 (states ++ [t2]) (xs2 ++ q1 :: ys)
                from by simp [compileLoop, hx2, h1, h2]]
          exact ih _ _ _ _ q1 q2 ys hq1 hq2

/-- Claim C10: quantifier characters that do not follow an atom never make
compilation raise and are silently dropped: a pattern with a leading star
or plus compiles to the very same result as without it, and dropping the
second of two adjacent quantifier characters leaves the compiled result
unchanged. -/
theorem c10_stray_quantifiers :
    (∀ (q : Char) (p : List Char), isQuant q = true →
      RegexFSM.compile graph0 (q :: p) = RegexFSM.compile graph0 p)
    ∧ (∀ (q1 q2 : Char) (xs ys : List Char), isQuant q1 = true → isQuant q2 = true →
      RegexFSM.compile graph0 (xs ++ q1 :: q2 :: ys) =
        RegexFSM.compile graph0 (xs ++ q1 :: ys)) := by
  constructor
  · intro q p hq
    unfold RegexFSM.compile
    rw [compileLoop_skip _ _ _ _ _ _ hq]
  · intro q1 q2 xs ys hq1 hq2
    unfold RegexFSM.compile
    rw [compileLoop_consec xs _ _ _ _ q1 q2 ys hq1 hq2]

/-- Witness for c10_stray_quantifiers: the pattern *b compiles to the same
result as b, and the pattern a*+ to the same result as a*. -/
theorem c10_stray_quantifiers_witness :
    RegexFSM.compile graph0 ('*' :: patB) = RegexFSM.compile graph0 patB
    ∧ RegexFSM.compile graph0 (['a'] ++ '*' :: '+' :: []) =
        RegexFSM.compile graph0 (['a'] ++ '*' :: []) :=
  ⟨c10_stray_quantifiers.1 '*' patB rfl,
   c10_stray_quantifiers.2 '*' '+' ['a'] [] rfl rfl⟩

/-- The canonical termination sink node. -/
def termNode : Node := { kind := .termination, next_states := [termIdx], is_end := some false }

/-- The graph invariant maintained by compilation: the sink at index 1 is
untouched, no termination-kind node is marked is_end, and no StarState
records the sink as its prev_state. -/
def GInv (g : Graph) : Prop :=
  g.nodes.get? termIdx = some termNode
  ∧ (∀ i, g.kindOf i = .termination → g.isEndOf i = some false)
  ∧ (∀ i ch pr, g.kindOf i = .star ch pr → pr ≠ termIdx)

theorem setAt_get? (f : Node → Node) :
    ∀ (l : List Node) (i j : Nat),
      (setAt l i f).get? j = if j = i then (l.get? i).map f else l.get? j := by
  intro l
  induction l with
  | nil =>
    intro i j
    simp [setAt]
  | cons n rest ih =>
    intro i j
    cases i with
    | zero =>
      cases j with
      | zero => simp [setAt]
      | succ j2 => simp [setAt]
    | succ i2 =>
      cases j with
      | zero => simp [setAt]
      | succ j2 =>
        simp only [setAt, List.get?_cons_succ, add_left_inj]
        exact ih i2 j2

theorem pushNext_get?_ne (g : Graph) (i j k : Nat) (h : k ≠ i) :
    (pushNext g i j).nodes.get? k = g.nodes.get? k := by
  unfold pushNext
  rw [setAt_get?, if_neg h]

theorem pushNext_kindOf (g : Graph) (i j k : Nat) :
    (pushNext g i j).kindOf k = g.kindOf k := by
  unfold Graph.kindOf pushNext
  rw [setAt_get?]
  by_cases h : k = i
  · subst h
    cases hg : g.nodes.get? k <;> simp [hg]
  · rw [if_neg h]

theorem pushNext_isEndOf (g : Graph) (i j k : Nat) :
    (pushNext g i j).isEndOf k = g.isEndOf k := by
  unfold Graph.isEndOf pushNext
  rw [setAt_get?]
  by_cases h : k = i
  · subst h
    cases hg : g.nodes.get? k <;> simp [hg]
  · rw [if_neg h]

theorem setEndTrue_get?_ne (g : Graph) (i k : Nat) (h : k ≠ i) :
    (setEndTrue g i).nodes.get? k = g.nodes.get? k := by
  unfold setEndTrue
  rw [setAt_get?, if_neg h]

theorem setEndTrue_kindOf (g : Graph) (i k : Nat) :
    (setEndTrue g i).kindOf k = g.kindOf k := by
  unfold Graph.kindOf setEndTrue
  rw [setAt_get?]
  by_cases h : k = i
  · subst h
    cases hg : g.nodes.get? k <;> simp [hg]
  · rw [if_neg h]

theorem setEndTrue_isEndOf_ne (g : Graph) (i k : Nat) (h : k ≠ i) :
    (setEndTrue g i).isEndOf k = g.isEndOf k := by
  unfold Graph.isEndOf setEndTrue
  rw [setAt_get?, if_neg h]

theorem addNode_get?_lt (g : Graph) (k : Kind) (j : Nat) (h : j < g.nodes.length) :
    (addNode g k).1.nodes.get? j = g.nodes.get? j := by
  unfold addNode
  exact List.get?_append h

theorem addNode_kindOf_lt (g : Graph) (k : Kind) (j : Nat) (h : j < g.nodes.length) :
    (addNode g k).1.kindOf j = g.kindOf j := by
  unfold Graph.kindOf
  rw [addNode_get?_lt g k j h]

theorem addNode_isEndOf_lt (g : Graph) (k : Kind) (j : Nat) (h : j < g.nodes.length) :
    (addNode g k).1.isEndOf j = g.isEndOf j := by
  unfold Graph.isEndOf
  rw [addNode_get?_lt g k j h]

theorem addNode_kindOf_len (g : Graph) (k : Kind) :
    (addNode g k).1.kindOf g.nodes.length = k := by
  unfold Graph.kindOf addNode
  rw [List.get?_concat_length]
  rfl

theorem addNode_kindOf_gt (g : Graph) (k : Kind) (j : Nat) (h : g.nodes.length < j) :
    (addNode g k).1.kindOf j = .start := by
  unfold Graph.kindOf addNode
  rw [List.get?_eq_none.mpr (by simp only [List.length_append, List.length_singleton]; omega)]

theorem GInv_len (g : Graph) (hg : GInv g) : 1 < g.nodes.length := by
  obtain ⟨h1, _, _⟩ := hg
  by_contra hle
  push_neg at hle
  rw [List.get?_eq_none.mpr (show g.nodes.length ≤ termIdx from hle)] at h1
  cases h1

theorem GInv_pushNext (g : Graph) (i j : Nat) (hg : GInv g) (hi : i ≠ termIdx) :
    GInv (pushNext g i j) := by
  obtain ⟨h1, h2, h3⟩ := hg
  refine ⟨?_, ?_, ?_⟩
  · rw [pushNext_get?_ne g i j termIdx (Ne.symm hi)]
    exact h1
  · intro k hk
    rw [pushNext_kindOf] at hk
    rw [pushNext_isEndOf]
    exact h2 k hk
  · intro k ch pr hk
    rw [pushNext_kindOf] at hk
    exact h3 k ch pr hk

theorem GInv_setEndTrue (g : Graph) (i : Nat) (hg : GInv g)
    (hterm : g.kindOf i ≠ .termination) : GInv (setEndTrue g i) := by
  obtain ⟨h1, h2, h3⟩ := hg
  have hi1 : i ≠ termIdx := by
    intro e
    subst e
    apply hterm
    unfold Graph.kindOf
    rw [h1]
    rfl
  refine ⟨?_, ?_, ?_⟩
  · rw [setEndTrue_get?_ne g i termIdx (Ne.symm hi1)]
    exact h1
  · intro k hk
    rw [setEndTrue_kindOf] at hk
    by_cases hki : k = i
    · subst hki
      exact absurd hk hterm
    · rw [setEndTrue_isEndOf_ne g i k hki]
      exact h2 k hk
  · intro k ch pr hk
    rw [setEndTrue_kindOf] at hk
    exact h3 k ch pr hk

theorem GInv_addNode (g : Graph) (k : Kind) (hg : GInv g) (hk : k ≠ .termination)
    (hpr : ∀ ch pr, k = .star ch pr → pr ≠ termIdx) : GInv (addNode g k).1 := by
  have hlen := GInv_len g hg
  obtain ⟨h1, h2, h3⟩ := hg
  refine ⟨?_, ?_, ?_⟩
  · rw [addNode_get?_lt g k termIdx hlen]
    exact h1
  · intro i hi
    rcases Nat.lt_trichotomy i g.nodes.length with hlt | heq | hgt
    · rw [addNode_kindOf_lt g k i hlt] at hi
      rw [addNode_isEndOf_lt g k i hlt]
      exact h2 i hi
    · subst heq
      rw [addNode_kindOf_len] at hi
      exact absurd hi hk
    · rw [addNode_kindOf_gt g k i hgt] at hi
      cases hi
  · intro i ch pr hi
    rcases Nat.lt_trichotomy i g.nodes.length with hlt | heq | hgt
    · rw [addNode_kindOf_lt g k i hlt] at hi
      exact h3 i ch pr hi
    · subst heq
      rw [addNode_kindOf_len] at hi
      exact hpr ch pr hi
    · rw [addNode_kindOf_gt g k i hgt] at hi
      cases hi

theorem markLoop_kindOf :
    ∀ (l : List Nat) (g : Graph) (k : Nat), (markLoop g l).1.kindOf k = g.kindOf k := by
  intro l
  induction l with
  | nil =>
    intro g k
    rfl
  | cons i rest ih =>
    intro g k
    by_cases hs : isStarKind g i = true
    · rw [show markLoop g (i :: rest) = markLoop (setEndTrue g i) rest from by
            simp [markLoop, hs],
          ih, setEndTrue_kindOf]
    · rw [show markLoop g (i :: rest) = (setEndTrue g i, true) from by
            simp [markLoop, hs]]
      exact setEndTrue_kindOf g i k

theorem GInv_markLoop :
    ∀ (l : List Nat) (g : Graph), GInv g → (∀ j ∈ l, g.kindOf j ≠ .termination) →
      GInv (markLoop g l).1 := by
  intro l
  induction l with
  | nil =>
    intro g hg _
    exact hg
  | cons i rest ih =>
    intro g hg hl
    by_cases hs : isStarKind g i = true
    · rw [show markLoop g (i :: rest) = markLoop (setEndTrue g i) rest from by
            simp [markLoop, hs]]
      apply ih
      · exact GInv_setEndTrue g i hg (hl i (by simp))
      · intro j hj
        rw [setEndTrue_kindOf]
        exact hl j (by simp [hj])
    · rw [show markLoop g (i :: rest) = (setEndTrue g i, true) from by
            simp [markLoop, hs]]
      exact GInv_setEndTrue g i hg (hl i (by simp))

theorem GInv_markEnds (g : Graph) (states : List Nat) (hg : GInv g)
    (hst : ∀ j ∈ states, g.kindOf j ≠ .termination) : GInv (markEnds g states) := by
  have hrev : ∀ j ∈ states.reverse, g.kindOf j ≠ .termination := by
    intro j hj
    exact hst j (List.mem_reverse.mp hj)
  have hm := GInv_markLoop states.reverse g hg hrev
  unfold markEnds
  by_cases hb : (markLoop g states.reverse).2 = true
  · rw [if_pos hb]
    exact hm
  · rw [if_neg hb]
    cases hsr : states.reverse with
    | nil =>
      rw [hsr] at hm
      exact hm
    | cons last rest2 =>
      rw [hsr] at hm
      apply GInv_setEndTrue _ last hm
      rw [markLoop_kindOf]
      exact hrev last (by rw [hsr]; simp)

/-- Every node built by RegexFSM.__init_next_state is an addNode of a
non-termination kind whose star prev_state field, if any, is the prev
argument, and the returned index is the old arena length. -/
theorem initNextState_shape (g : Graph) (c : Char) (prev tmp : Nat) (g1 : Graph) (t1 : Nat)
    (h : initNextState g c prev tmp = .ok (g1, t1)) :
    ∃ k, k ≠ Kind.termination ∧ (∀ ch pr, k = Kind.star ch pr → pr = prev)
      ∧ g1 = (addNode g k).1 ∧ t1 = g.nodes.length := by
  unfold initNextState at h
  by_cases h1 : c = '.'
  · rw [if_pos h1] at h
    have hp := Except.ok.inj h
    refine ⟨.dot, by simp, ?_, (congrArg Prod.fst hp).symm, (congrArg Prod.snd hp).symm⟩
    intro ch pr e
    cases e
  · rw [if_neg h1] at h
    by_cases h2 : c = '*'
    · rw [if_pos h2] at h
      have hp := Except.ok.inj h
      refine ⟨.star tmp prev, by simp, ?_, (congrArg Prod.fst hp).symm,
        (congrArg Prod.snd hp).symm⟩
      intro ch pr e
      cases e
      rfl
    · rw [if_neg h2] at h
      by_cases h3 : c = '+'
      · rw [if_pos h3] at h
        have hp := Except.ok.inj h
        refine ⟨.plus tmp, by simp, ?_, (congrArg Prod.fst hp).symm,
          (congrArg Prod.snd hp).symm⟩
        intro ch pr e
        cases e
      · rw [if_neg h3] at h
        by_cases h4 : isAsciiPy c = true
        · rw [if_pos h4] at h
          have hp := Except.ok.inj h
          refine ⟨.ascii c, by simp, ?_, (congrArg Prod.fst hp).symm,
            (congrArg Prod.snd hp).symm⟩
          intro ch pr e
          cases e
        · rw [if_neg h4] at h
          cases h

/-- Properties of the node produced by one RegexFSM.__init_next_state call. -/
theorem GInv_initNextState (g : Graph) (c : Char) (prev tmp : Nat) (g1 : Graph) (t1 : Nat)
    (h : initNextState g c prev tmp = .ok (g1, t1)) (hg : GInv g) (hprev : prev ≠ termIdx) :
    GInv g1 ∧ t1 = g.nodes.length ∧ g1.nodes.length = g.nodes.length + 1
    ∧ g1.kindOf t1 ≠ .termination
    ∧ (∀ j, j < g.nodes.length → g1.nodes.get? j = g.nodes.get? j) := by
  obtain ⟨k, hk, hkpr, hg1, ht1⟩ := initNextState_shape g c prev tmp g1 t1 h
  subst hg1
  subst ht1
  refine ⟨GInv_addNode g k hg hk ?_, rfl, ?_, ?_, ?_⟩
  · intro ch pr e
    rw [hkpr ch pr e]
    exact hprev
  · simp [addNode]
  · rw [addNode_kindOf_len]
    exact hk
  · intro j hj
    exact addNode_get?_lt g k j hj

/-- Properties of the node standing after the lookahead. -/
theorem GInv_lookAhead (g1 : Graph) (prev t1 : Nat) (rest : List Char) (g2 : Graph) (t2 : Nat)
    (h : lookAhead g1 prev t1 rest = .ok (g2, t2)) (hg : GInv g1) (hprev : prev ≠ termIdx)
    (ht1a : t1 < g1.nodes.length) (ht1b : g1.kindOf t1 ≠ .termination) :
    GInv g2 ∧ t2 < g2.nodes.length ∧ g2.kindOf t2 ≠ .termination
    ∧ (t2 = t1 ∨ t2 = g1.nodes.length)
    ∧ (∀ j, j < g1.nodes.length → g2.nodes.get? j = g1.nodes.get? j)
    ∧ g1.nodes.length ≤ g2.nodes.length := by
  have hid : (Except.ok (g1, t1) : Except PyErr (Graph × Nat)) = .ok (g2, t2) →
      GInv g2 ∧ t2 < g2.nodes.length ∧ g2.kindOf t2 ≠ .termination
      ∧ (t2 = t1 ∨ t2 = g1.nodes.length)
      ∧ (∀ j, j < g1.nodes.length → g2.nodes.get? j = g1.nodes.get? j)
      ∧ g1.nodes.length ≤ g2.nodes.length := by
    intro he
    have hp := Except.ok.inj he
    have e1 : g1 = g2 := congrArg Prod.fst hp
    have e2 : t1 = t2 := congrArg Prod.snd hp
    subst e1
    subst e2
    exact ⟨hg, ht1a, ht1b, Or.inl rfl, fun j _ => rfl, Nat.le_refl _⟩
  cases rest with
  | nil => exact hid h
  | cons c2 rest2 =>
    by_cases hq : isQuant c2 = true
    · rw [show lookAhead g1 prev t1 (c2 :: rest2) = initNextState g1 c2 prev t1 from by
            simp [lookAhead, hq]] at h
      obtain ⟨hg2, ht2, hlen, hk2, hpres⟩ :=
        GInv_initNextState g1 c2 prev t1 g2 t2 h hg hprev
      refine ⟨hg2, ?_, hk2, Or.inr ht2, hpres, by omega⟩
      omega
    · rw [show lookAhead g1 prev t1 (c2 :: rest2) = .ok (g1, t1) from by
            simp [lookAhead, hq]] at h
      exact hid h

/-- linkNew preserves the graph invariant and touches neither kinds nor the
arena length. -/
theorem GInv_linkNew (g2 : Graph) (prev t2 : Nat) (hg : GInv g2) (hprev : prev ≠ termIdx) :
    GInv (linkNew g2 prev t2)
    ∧ (∀ k, (linkNew g2 prev t2).kindOf k = g2.kindOf k)
    ∧ (linkNew g2 prev t2).nodes.length = g2.nodes.length := by
  have hlen : ∀ (g : Graph) (i j : Nat), (pushNext g i j).nodes.length = g.nodes.length := by
    intro g i j
    unfold pushNext
    have : ∀ (l : List Node) (i : Nat) (f : Node → Node), (setAt l i f).length = l.length := by
      intro l
      induction l with
      | nil =>
        intro i f
        rfl
      | cons n rest ih =>
        intro i f
        cases i with
        | zero => rfl
        | succ i2 => simp [setAt, ih i2 f]
    exact this g.nodes i _
  unfold linkNew
  by_cases hs : isStarKind (pushNext g2 prev t2) prev = true
  · rw [if_pos hs]
    have hg3 := GInv_pushNext g2 prev t2 hg hprev
    have hstar : ∃ ch pr, (pushNext g2 prev t2).kindOf prev = Kind.star ch pr := by
      unfold isStarKind at hs
      cases hk : (pushNext g2 prev t2).kindOf prev with
      | star ch pr => exact ⟨ch, pr, rfl⟩
      | start => rw [hk] at hs; cases hs
      | termination => rw [hk] at hs; cases hs
      | dot => rw [hk] at hs; cases hs
      | ascii sym => rw [hk] at hs; cases hs
      | plus ch => rw [hk] at hs; cases hs
    obtain ⟨ch, pr, hk⟩ := hstar
    have hpr1 : pr ≠ termIdx := hg3.2.2 prev ch pr hk
    have hpo : (pushNext g2 prev t2).prevOf prev = pr := by
      unfold Graph.prevOf
      rw [hk]
    refine ⟨?_, ?_, ?_⟩
    · apply GInv_pushNext _ _ _ hg3
      rw [hpo]
      exact hpr1
    · intro k
      rw [pushNext_kindOf, pushNext_kindOf]
    · rw [hlen, hlen]
  · rw [if_neg hs]
    exact ⟨GInv_pushNext g2 prev t2 hg hprev,
      fun k => pushNext_kindOf g2 prev t2 k, hlen g2 prev t2⟩

/-- The loop invariant of the scan: the graph invariant holds, prev_state
is not the sink, and every chain node recorded in states is in range with a
non-termination kind. -/
def CInv (g : Graph) (prev : Nat) (states : List Nat) : Prop :=
  GInv g ∧ prev ≠ termIdx
  ∧ ∀ j ∈ states, j < g.nodes.length ∧ g.kindOf j ≠ .termination

theorem kindOf_of_get?_eq (g1 g2 : Graph) (j : Nat)
    (h : g1.nodes.get? j = g2.nodes.get? j) : g1.kindOf j = g2.kindOf j := by
  unfold Graph.kindOf
  rw [h]

/-- One non-quantifier step of the scan preserves the loop invariant. -/
theorem CInv_step (g : Graph) (prev tmp : Nat) (states : List Nat) (c : Char)
    (g1 : Graph) (t1 : Nat) (g2 : Graph) (t2 : Nat) (rest : List Char)
    (hinv : CInv g prev states)
    (h1 : initNextState g c prev tmp = .ok (g1, t1))
    (h2 : lookAhead g1 prev t1 rest = .ok (g2, t2)) :
    CInv (linkNew g2 prev t2) t2 (states ++ [t2]) := by
  obtain ⟨hg, hprev, hstates⟩ := hinv
  have hg2len := GInv_len g hg
  obtain ⟨hg1, ht1len, hg1len, ht1k, hpres1⟩ :=
    GInv_initNextState g c prev tmp g1 t1 h1 hg hprev
  have ht1lt : t1 < g1.nodes.length := by omega
  obtain ⟨hgB, ht2lt, ht2k, ht2or, hpres2, hlen2⟩ :=
    GInv_lookAhead g1 prev t1 rest g2 t2 h2 hg1 hprev ht1lt ht1k
  obtain ⟨hgl, hkl, hll⟩ := GInv_linkNew g2 prev t2 hgB hprev
  refine ⟨hgl, ?_, ?_⟩
  · show t2 ≠ termIdx
    have : termIdx = 1 := rfl
    rcases ht2or with he | he <;> omega
  · intro j hj
    rcases List.mem_append.mp hj with hold | hnew
    · obtain ⟨hjl, hjk⟩ := hstates j hold
      constructor
      · omega
      · rw [hkl j, kindOf_of_get?_eq g2 g1 j (hpres2 j (by omega)),
          kindOf_of_get?_eq g1 g j (hpres1 j hjl)]
        exact hjk
    · have he : j = t2 := by
        cases hnew with
        | head => rfl
        | tail _ hmem => cases hmem
      subst he
      constructor
      · omega
      · rw [hkl j]
        exact ht2k

/-- The scanning loop preserves the invariant all the way to its result. -/
theorem compileLoop_inv :
    ∀ (p : List Char) (g : Graph) (prev tmp : Nat) (states : List Nat)
      (gout : Graph) (souts : List Nat),
      CInv g prev states → compileLoop g prev tmp states p = .ok (gout, souts) →
      GInv gout ∧ ∀ j ∈ souts, gout.kindOf j ≠ .termination := by
  intro p
  induction p with
  | nil =>
    intro g prev tmp states gout souts hinv heq
    obtain ⟨hg, hp, hs⟩ := hinv
    have hpair := Except.ok.inj heq
    have e1 : g = gout := congrArg Prod.fst hpair
    have e2 : states = souts := congrArg Prod.snd hpair
    subst e1
    subst e2
    exact ⟨hg, fun j hj => (hs j hj).2⟩
  | cons c rest ih =>
    intro g prev tmp states gout souts hinv heq
    by_cases hq : isQuant c = true
    · rw [compileLoop_skip _ _ _ _ _ _ hq] at heq
      exact ih g prev tmp states gout souts hinv heq
    · have hq2 : isQuant c = false := by
        cases hb : isQuant c
        · rfl
        · exact absurd hb hq
      cases h1 : initNextState g c prev tmp with
      | error e =>
        rw [show compileLoop g prev tmp states (c :: rest) = .error e from by
              simp [compileLoop, hq2, h1]] at heq
        cases heq
      | ok r1 =>
        obtain ⟨g1, t1⟩ := r1
        cases h2 : lookAhead g1 prev t1 rest with
        | error e =>
          rw [show compileLoop g prev tmp states (c :: rest) = .error e from by
                simp [compileLoop, hq2, h1, h2]] at heq
          cases heq
        | ok r2 =>
          obtain ⟨g2, t2⟩ := r2
          rw [show compileLoop g prev tmp states (c :: rest) =
              compileLoop (linkNew g2 prev t2) t2 t2 (states ++ [t2]) rest from by
                simp [compileLoop, hq2, h1, h2]] at heq
          exact ih _ _ _ _ _ _
            (CInv_step g prev tmp states c g1 t1 g2 t2 rest hinv h1 h2) heq

/-- The initial arena satisfies the graph invariant. -/
theorem GInv_graph0 : GInv graph0 := by
  refine ⟨rfl, ?_, ?_⟩
  · intro i h
    match i with
    | 0 => exact absurd h (by decide)
    | 1 => rfl
    | n+2 =>
      have e : Graph.kindOf graph0 (n+2) = Kind.start := rfl
      rw [e] at h
      cases h
  · intro i ch pr h
    match i with
    | 0 => exact absurd h (by simp [Graph.kindOf, graph0])
    | 1 => exact absurd h (by simp [Graph.kindOf, graph0])
    | n+2 =>
      have e : Graph.kindOf graph0 (n+2) = Kind.start := rfl
      rw [e] at h
      cases h

/-- Every graph produced by RegexFSM.__init__ satisfies the invariant. -/
theorem compile_inv (p : List Char) (g : Graph)
    (hcomp : RegexFSM.compile graph0 p = .ok g) : GInv g := by
  unfold RegexFSM.compile at hcomp
  cases hcl : compileLoop graph0 START START [START] p with
  | error e =>
    rw [hcl] at hcomp
    cases hcomp
  | ok r =>
    obtain ⟨g1, states⟩ := r
    rw [hcl] at hcomp
    have hme : markEnds g1 states = g := Except.ok.inj hcomp
    have hinit : CInv graph0 START [START] := by
      refine ⟨GInv_graph0, by decide, ?_⟩
      intro j hj
      have : j = START := by
        cases hj with
        | head => rfl
        | tail _ hmem => cases hmem
      subst this
      exact ⟨by decide, by decide⟩
    obtain ⟨hg1, hsts⟩ := compileLoop_inv p graph0 START START [START] g1 states hinit hcl
    rw [← hme]
    exact GInv_markEnds g1 states hg1 hsts

/-- From the termination sink, check_string consumes the rest of the input
staying on the sink and reports is_end False: rejection. -/
theorem sink_absorbing (g : Graph) (h : g.nodes.get? termIdx = some termNode) :
    ∀ (s : List Char) (sig : List Nat) (fuel : Nat),
      checkString g (fuel+1) sig termIdx s = some (.ok (false, sig)) := by
  have hk : g.kindOf termIdx = Kind.termination := by
    unfold Graph.kindOf
    rw [h]
    rfl
  have hn : g.nextOf termIdx = [termIdx] := by
    unfold Graph.nextOf
    rw [h]
    rfl
  have he : g.isEndOf termIdx = some false := by
    unfold Graph.isEndOf
    rw [h]
    rfl
  intro s
  induction s with
  | nil =>
    intro sig fuel
    simp only [checkString, he]
  | cons c rest ih =>
    intro sig fuel
    have hff : ffCond g termIdx = false := by
      unfold ffCond
      rw [hk]
    have hcn : checkNext g (fuel+1) sig termIdx c = some (termIdx, sig) := by
      simp only [checkNext, hk, hn, probeSelfList, checkSelf]
    simp only [checkString, hff, Bool.false_eq_true, if_false, hcn]
    exact ih sig fuel

/-- Claim C8: on every compiled graph no termination node is marked is_end,
and from the termination sink every transition yields the sink again, so a
match call that has reached it returns False whatever input remains. -/
theorem c8_termination_rejects :
    ∀ (p : List Char) (g : Graph), RegexFSM.compile graph0 p = .ok g →
      (∀ i, g.kindOf i = .termination → g.isEndOf i = some false)
      ∧ ∀ (s : List Char) (sig : List Nat) (fuel : Nat),
          checkString g (fuel+1) sig termIdx s = some (.ok (false, sig)) := by
  intro p g hc
  have hg := compile_inv p g hc
  exact ⟨hg.2.1, sink_absorbing g hg.1⟩

/-- Witness for c8_termination_rejects on the graph of the pattern a4 and
the input zz. -/
theorem c8_termination_rejects_witness :
    GC8.isEndOf termIdx = some false
    ∧ checkString GC8 6 [] termIdx inpZZ = some (.ok (false, [])) :=
  ⟨(c8_termination_rejects patC8 GC8 rfl).1 termIdx rfl,
   (c8_termination_rejects patC8 GC8 rfl).2 inpZZ [] 5⟩
